import Mathlib

/-!
Verification development for the blackjack card-counting simulator
(`blackjackai.py`, `blackjackapp.py`).  The Python classes are shallowly
embedded as Lean structures and functions; Python floats are modelled as
rationals, Python ints as `Int`/`Nat`, and the `IndexError` raised by
`list.pop()` on an empty list as an explicit `Except` error.  Randomness
(the shoe shuffle) is modelled by passing the shuffled card list
explicitly: any permutation of the six-deck multiset is a possible
shuffle outcome.
-/

namespace Blackjack

/-- The four player actions (`class Action(Enum)`). -/
inductive Action where
  | hit
  | stand
  | double
  | split
deriving DecidableEq

/-- Card ranks, mirroring `Card.RANKS` (two through ten, jack, queen,
king, ace). -/
inductive Rank where
  | r2 | r3 | r4 | r5 | r6 | r7 | r8 | r9 | r10 | rJ | rQ | rK | rA
deriving DecidableEq

/-- Card suits (`Card.SUITS`); suit is cosmetic only. -/
inductive Suit where
  | spades | hearts | diamonds | clubs
deriving DecidableEq

/-- A single playing card (`class Card`). -/
structure Card where
  rank : Rank
  suit : Suit
deriving DecidableEq

instance : Inhabited Card := ⟨⟨Rank.r2, Suit.spades⟩⟩

/-- Embeds `Card.getValue`: faces are 10, aces start at 11, numbers
their face value. -/
def Card.getValue (c : Card) : Nat :=
  match c.rank with
  | .rJ | .rQ | .rK => 10
  | .rA => 11
  | .r2 => 2
  | .r3 => 3
  | .r4 => 4
  | .r5 => 5
  | .r6 => 6
  | .r7 => 7
  | .r8 => 8
  | .r9 => 9
  | .r10 => 10

def Card.RANKS : List Rank :=
  [.r2, .r3, .r4, .r5, .r6, .r7, .r8, .r9, .r10, .rJ, .rQ, .rK, .rA]

def Card.SUITS : List Suit := [.spades, .hearts, .diamonds, .clubs]

/-- Embeds `Deck.reset`: the shoe is built deck by deck, suit by suit, rank by
rank (`for i in range(numDecks): for suit: for rank: append`), before the
random shuffle is applied. -/
def buildDeckList (numDecks : Nat) : List Card :=
  (List.range numDecks).flatMap fun _ =>
    Card.SUITS.flatMap fun s => Card.RANKS.map fun r => { rank := r, suit := s }

/-- A blackjack hand (`class Hand`).  The Lean list holds the cards in
the order they were added, so index 0 of the Python list is the head. -/
structure Hand where
  cards : List Card
  betAmount : ℚ
  isDoubled : Bool
  wasSplit : Bool
deriving DecidableEq

/-- Embeds `Hand.addCard`: appends at the end, as `list.append` does. -/
def Hand.addCard (h : Hand) (c : Card) : Hand :=
  { h with cards := h.cards ++ [c] }

/-- The ace-adjustment loop inside `Hand.getValue`:
`while totalValue > 21 and numAces > 0: totalValue -= 10; numAces -= 1`. -/
def reduceAces : Nat → Nat → Nat
  | total, 0 => total
  | total, aces + 1 => if 21 < total then reduceAces (total - 10) aces else total

/-- Embeds the raw total of `Hand.getValue`: the sum of the card values
before any ace adjustment. -/
def Hand.rawValue (h : Hand) : Nat := (h.cards.map Card.getValue).sum

/-- Embeds the ace tally of `Hand.getValue` and `Hand.isSoft`: the
number of cards whose rank is the ace. -/
def Hand.numAces (h : Hand) : Nat :=
  (h.cards.filter fun c => c.rank == Rank.rA).length

/-- Embeds `Hand.getValue`: total of card values with aces reduced from 11 to 1
while the total exceeds 21. -/
def Hand.getValue (h : Hand) : Nat := reduceAces h.rawValue h.numAces

/-- Embeds `Hand.isSoft` exactly as the source computes it: it tests the raw
total (before any ace reduction) against 21. -/
def Hand.isSoft (h : Hand) : Bool :=
  decide (0 < h.numAces) && decide (h.rawValue ≤ 21)

/-- Modelled from the spec: the spec defines soft as "at least one ace
still counted as 11 and total ≤ 21" after the ace-reduction of the value
computation.  This reduction loop also reports how many aces are still
counted as 11 when it stops. -/
def reduceAcesCount : Nat → Nat → Nat × Nat
  | total, 0 => (total, 0)
  | total, aces + 1 =>
    if 21 < total then reduceAcesCount (total - 10) aces else (total, aces + 1)

/-- Modelled from the spec: "Soft" = at least one ace still counted as 11
after ace reduction, and the (reduced) total is at most 21. -/
def Hand.isSoftSpec (h : Hand) : Prop :=
  0 < (reduceAcesCount h.rawValue h.numAces).2 ∧
    (reduceAcesCount h.rawValue h.numAces).1 ≤ 21

instance (h : Hand) : Decidable h.isSoftSpec := by
  unfold Hand.isSoftSpec; infer_instance

/-- Embeds `Hand.isBlackjack`: a natural 21 on the first two cards. -/
def Hand.isBlackjack (h : Hand) : Bool :=
  h.cards.length == 2 && h.getValue == 21

/-- Embeds `Hand.isBusted`. -/
def Hand.isBusted (h : Hand) : Bool := decide (21 < h.getValue)

/-- Embeds `Hand.canSplit`: exactly two cards of equal value. -/
def Hand.canSplit (h : Hand) : Bool :=
  match h.cards with
  | [c0, c1] => c0.getValue == c1.getValue
  | _ => false

/-- Hi-Lo running/true count state (`class CardCounter`). -/
structure CardCounter where
  runningCount : Int
  cardsSeen : Nat
deriving DecidableEq

/-- The Hi-Lo delta of one card as computed in `CardCounter.countCard`:
+1 for 2-6, 0 for 7-9, -1 for 10/J/Q/K/A. -/
def hiLo (c : Card) : Int :=
  match c.rank with
  | .r2 | .r3 | .r4 | .r5 | .r6 => 1
  | .r7 | .r8 | .r9 => 0
  | .r10 | .rJ | .rQ | .rK | .rA => -1

/-- Embeds `CardCounter.countCard` (the returned delta is discarded by every
caller in the repository, so only the state update is modelled). -/
def CardCounter.countCard (st : CardCounter) (c : Card) : CardCounter :=
  { runningCount := st.runningCount + hiLo c, cardsSeen := st.cardsSeen + 1 }

/-- Embeds `CardCounter.getTrueCount`: running count over decks remaining,
clamped to 0 when no deck fraction remains. -/
def CardCounter.getTrueCount (st : CardCounter) (decksRemaining : ℚ) : ℚ :=
  if decksRemaining ≤ 0 then 0 else (st.runningCount : ℚ) / decksRemaining

/-- Embeds `Deck.decksRemaining`: the remaining count divided by 52. -/
def decksRemainingQ (deck : List Card) : ℚ := (deck.length : ℚ) / 52

/-- The multiplier ladder inside `BankrollManager.getBetAmount`
(trueCount < 1 → 1x, < 2 → 2x, < 3 → 4x, < 4 → 6x, else 8x). -/
def betMultiplier (trueCount : ℚ) : ℚ :=
  if trueCount < 1 then 1
  else if trueCount < 2 then 2
  else if trueCount < 3 then 4
  else if trueCount < 4 then 6
  else 8

/-- Embeds `BankrollManager.getBetAmount`: ladder multiplier capped at
`maxBetMultiplier`, bet = baseBet times multiplier, capped at 5% of the
bankroll (`0.05` is the rational 5/100 here), capped at the bankroll,
then floored at `baseBet`. -/
def getBetAmount (baseBet maxBetMultiplier trueCount currentBankroll : ℚ) : ℚ :=
  let multiplier := min (betMultiplier trueCount) maxBetMultiplier
  let betAmount := baseBet * multiplier
  let maxAllowedBet := currentBankroll * (5 / 100)
  let betAmount2 := min betAmount maxAllowedBet
  let betAmount3 := min betAmount2 currentBankroll
  max baseBet betAmount3

/-- Embeds `BasicStrategy.hardHandStrategy`. -/
def hardHandStrategy (playerValue dealerValue : Nat) (canDouble : Bool) : Action :=
  if 17 ≤ playerValue then .stand
  else if 13 ≤ playerValue ∧ playerValue ≤ 16 then
    if 2 ≤ dealerValue ∧ dealerValue ≤ 6 then .stand else .hit
  else if playerValue = 12 then
    if 4 ≤ dealerValue ∧ dealerValue ≤ 6 then .stand else .hit
  else if playerValue = 11 then
    if canDouble then .double else .hit
  else if playerValue = 10 then
    if canDouble ∧ dealerValue ≤ 9 then .double else .hit
  else if playerValue = 9 then
    if canDouble ∧ 3 ≤ dealerValue ∧ dealerValue ≤ 6 then .double else .hit
  else .hit

/-- Embeds `BasicStrategy.softHandStrategy`. -/
def softHandStrategy (playerValue dealerValue : Nat) (canDouble : Bool) : Action :=
  if 19 ≤ playerValue then .stand
  else if playerValue = 18 then
    if canDouble ∧ dealerValue ∈ [3, 4, 5, 6] then .double
    else if dealerValue ∈ [2, 7, 8] then .stand
    else .hit
  else if playerValue = 17 then
    if canDouble ∧ dealerValue ∈ [3, 4, 5, 6] then .double else .hit
  else if playerValue ∈ [15, 16] then
    if canDouble ∧ dealerValue ∈ [4, 5, 6] then .double else .hit
  else if playerValue ∈ [13, 14] then
    if canDouble ∧ dealerValue ∈ [5, 6] then .double else .hit
  else .hit

/-- Embeds `BasicStrategy.pairSplittingStrategy`.  The Python code reads
`playerHand.cards[0]`; both call sites guarantee two cards, and `headI`
supplies the head.  Note that both fall-through calls into the hard-hand
table pass `canDouble = True` verbatim, as the source does. -/
def pairSplittingStrategy (playerHand : Hand) (dealerValue : Nat) : Action :=
  let cardValue := playerHand.cards.headI.getValue
  if cardValue = 11 ∨ cardValue = 8 then .split
  else if cardValue = 5 ∨ cardValue = 10 then
    hardHandStrategy playerHand.getValue dealerValue true
  else if (cardValue = 2 ∨ cardValue = 3 ∨ cardValue = 7) ∧
      (2 ≤ dealerValue ∧ dealerValue ≤ 7) then .split
  else if cardValue = 4 ∧ (5 ≤ dealerValue ∧ dealerValue ≤ 6) then .split
  else if cardValue = 6 ∧ (2 ≤ dealerValue ∧ dealerValue ≤ 6) then .split
  else if cardValue = 9 ∧
      ((2 ≤ dealerValue ∧ dealerValue ≤ 6) ∨ (8 ≤ dealerValue ∧ dealerValue ≤ 9)) then
    .split
  else hardHandStrategy playerHand.getValue dealerValue true

/-- Embeds `BasicStrategy.getAction`: pairs first (when splitting is allowed),
then two-card soft hands, then the hard table. -/
def getAction (playerHand : Hand) (dealerUpcard : Card)
    (canDouble canSplit : Bool) : Action :=
  let playerValue := playerHand.getValue
  let dealerValue := dealerUpcard.getValue
  if canSplit && playerHand.canSplit then
    pairSplittingStrategy playerHand dealerValue
  else if playerHand.isSoft && playerHand.cards.length == 2 then
    softHandStrategy playerValue dealerValue canDouble
  else hardHandStrategy playerValue dealerValue canDouble

/-- Python `int()` applied to a float/rational: truncation toward zero,
used for `self.reshufflePoint = int(self.deck.numDecks * 52 * (1 - penetration))`. -/
def pyInt (q : ℚ) : Int := if q < 0 then ⌈q⌉ else ⌊q⌋

/-- The whole mutable session state of `class BlackjackGame` (the
`Deck`, `CardCounter` and `BankrollManager` it owns are inlined as
fields; `numDecks` is fixed at 6 by the constructor).  The deck list
holds the cards in deal order: `Deck.dealCard` pops from the end of the
Python list, so the head of this list is the next card dealt. -/
structure BlackjackGame where
  deck : List Card
  bankroll : ℚ
  baseBet : ℚ
  useCardCounting : Bool
  useWonging : Bool
  wongingThreshold : ℚ
  penetration : ℚ
  reshufflePoint : Int
  counter : CardCounter
  maxBetMultiplier : ℚ
  handsPlayed : Nat
  handsWon : Nat
  handsLost : Nat
  handsPushed : Nat
  handsSatOut : Nat
  totalWagered : ℚ
  maxBankroll : ℚ
  minBankroll : ℚ
deriving DecidableEq

/-- Embeds `BlackjackGame.__init__`.  Here `initialDeck` is the (shuffled) six-deck
shoe produced by `Deck(numDecks=6)`; the constructor performs no
validation of any argument.  `maxBetMultiplier` is fixed at 10.0. -/
def mkBlackjackGame (startingBankroll baseBet : ℚ) (useCardCounting : Bool)
    (penetration : ℚ) (useWonging : Bool) (wongingThreshold : ℚ)
    (initialDeck : List Card) : BlackjackGame where
  deck := initialDeck
  bankroll := startingBankroll
  baseBet := baseBet
  useCardCounting := useCardCounting
  useWonging := useWonging
  wongingThreshold := wongingThreshold
  penetration := penetration
  reshufflePoint := pyInt ((6 * 52 : ℚ) * (1 - penetration))
  counter := { runningCount := 0, cardsSeen := 0 }
  maxBetMultiplier := 10
  handsPlayed := 0
  handsWon := 0
  handsLost := 0
  handsPushed := 0
  handsSatOut := 0
  totalWagered := 0
  maxBankroll := startingBankroll
  minBankroll := startingBankroll

/-- Embeds the check `Deck.needsReshuffle(self.reshufflePoint)`:
remaining < threshold. -/
def needsReshuffle (g : BlackjackGame) : Bool :=
  decide ((g.deck.length : Int) < g.reshufflePoint)

/-- Embeds `updateBankrollStats`. -/
def updateBankrollStats (g : BlackjackGame) : BlackjackGame :=
  { g with maxBankroll := max g.maxBankroll g.bankroll,
           minBankroll := min g.minBankroll g.bankroll }

/-- Runtime failures of a `playHand` call: `shoeEmpty` models the
`IndexError` that `self.cards.pop()` raises on an empty shoe; `fuelOut`
models non-termination of the `while True` loops (it is proved
unreachable for the fuel the engine passes). -/
inductive HandError where
  | shoeEmpty
  | fuelOut
deriving DecidableEq

/-- The burn loop of the Wonging (sat-out) path: four iterations, each
dealing and counting one card only if the shoe is non-empty. -/
def burnCards : Nat → BlackjackGame → BlackjackGame
  | 0, g => g
  | n + 1, g =>
    match g.deck with
    | [] => burnCards n g
    | card :: rest =>
      burnCards n { g with deck := rest, counter := g.counter.countCard card }

/-- Embeds `playPlayerHand`: the player-turn loop.  Each continuing
iteration deals exactly one card; the fuel argument only bounds the
iteration count and is always passed as `deck.length + 1`.  On a bust the
wager is deducted and the loss returned (`some`); `none` means the dealer
still has to play.  The `split` case mirrors the Python loop falling
through with no matching branch (an infinite loop re-asking the same
action); it is proved unreachable since `canSplit` is passed `False`. -/
def playPlayerHand (dealerUpcard : Card) :
    Nat → BlackjackGame → Hand → Except HandError (BlackjackGame × Hand × Option ℚ)
  | 0, _, _ => .error .fuelOut
  | fuel + 1, g, playerHand =>
    let canDouble :=
      playerHand.cards.length == 2 && decide (playerHand.betAmount ≤ g.bankroll)
    match getAction playerHand dealerUpcard canDouble false with
    | .hit =>
      match g.deck with
      | [] => .error .shoeEmpty
      | card :: rest =>
        let hand2 := playerHand.addCard card
        let g2 := { g with deck := rest, counter := g.counter.countCard card }
        if hand2.isBusted then
          .ok ({ g2 with bankroll := g2.bankroll - hand2.betAmount,
                         handsLost := g2.handsLost + 1 },
               hand2, some (-hand2.betAmount))
        else playPlayerHand dealerUpcard fuel g2 hand2
    | .stand => .ok (g, playerHand, none)
    | .double =>
      if canDouble then
        match g.deck with
        | [] => .error .shoeEmpty
        | card :: rest =>
          let hand2 :=
            ({ playerHand with isDoubled := true,
                               betAmount := playerHand.betAmount * 2 }).addCard card
          let g2 := { g with deck := rest, counter := g.counter.countCard card }
          if hand2.isBusted then
            .ok ({ g2 with bankroll := g2.bankroll - hand2.betAmount,
                           handsLost := g2.handsLost + 1 },
                 hand2, some (-hand2.betAmount))
          else .ok (g2, hand2, none)
      else
        match g.deck with
        | [] => .error .shoeEmpty
        | card :: rest =>
          let hand2 := playerHand.addCard card
          let g2 := { g with deck := rest, counter := g.counter.countCard card }
          if hand2.isBusted then
            .ok ({ g2 with bankroll := g2.bankroll - hand2.betAmount,
                           handsLost := g2.handsLost + 1 },
                 hand2, some (-hand2.betAmount))
          else playPlayerHand dealerUpcard fuel g2 hand2
    | .split => playPlayerHand dealerUpcard fuel g playerHand

/-- The dealer loop: `while dealerHand.getValue() < 17: deal, count`.
Fuel is always passed as `deck.length + 1`. -/
def dealerTurn :
    Nat → BlackjackGame → Hand → Except HandError (BlackjackGame × Hand)
  | 0, _, _ => .error .fuelOut
  | fuel + 1, g, dealerHand =>
    if dealerHand.getValue < 17 then
      match g.deck with
      | [] => .error .shoeEmpty
      | card :: rest =>
        dealerTurn fuel
          { g with deck := rest, counter := g.counter.countCard card }
          (dealerHand.addCard card)
    else .ok (g, dealerHand)

/-- Embeds `determineWinner`: dealer bust or higher player value pays the wager,
lower player value forfeits it, a tie pushes. -/
def determineWinner (g : BlackjackGame) (playerHand dealerHand : Hand) :
    BlackjackGame × ℚ :=
  let playerValue := playerHand.getValue
  let dealerValue := dealerHand.getValue
  let betAmount := playerHand.betAmount
  if dealerHand.isBusted || decide (dealerValue < playerValue) then
    ({ g with bankroll := g.bankroll + betAmount, handsWon := g.handsWon + 1 },
     betAmount)
  else if playerValue < dealerValue then
    ({ g with bankroll := g.bankroll - betAmount, handsLost := g.handsLost + 1 },
     -betAmount)
  else ({ g with handsPushed := g.handsPushed + 1 }, 0)

/-- The reshuffle check opening `playHand`: if the cut card was reached,
`Deck.reset` installs a freshly shuffled shoe and `CardCounter.reset`
zeroes the count in the same step. -/
def reshuffleCheck (freshDeck : List Card) (g0 : BlackjackGame) : BlackjackGame :=
  if needsReshuffle g0 then
    { g0 with deck := freshDeck, counter := { runningCount := 0, cardsSeen := 0 } }
  else g0

/-- The body of `BlackjackGame.playHand` after the reshuffle check:
Wonging check, bet sizing, insufficient-funds check, initial deal,
blackjack checks, player turn, dealer turn, settlement, stats update.
The returned rational is the hand profit. -/
def playHandMain (g1 : BlackjackGame) : Except HandError (BlackjackGame × ℚ) :=
  let trueCount := g1.counter.getTrueCount (decksRemainingQ g1.deck)
  if g1.useWonging && decide (trueCount < g1.wongingThreshold) then
    .ok (burnCards 4 { g1 with handsSatOut := g1.handsSatOut + 1 }, 0)
  else
    let betAmount :=
      if g1.useCardCounting then
        getBetAmount g1.baseBet g1.maxBetMultiplier trueCount g1.bankroll
      else g1.baseBet
    if g1.bankroll < betAmount then .ok (g1, 0)
    else
      match g1.deck with
      | p1 :: d1 :: p2 :: d2 :: rest =>
        let counter4 :=
          (((g1.counter.countCard p1).countCard d1).countCard p2).countCard d2
        let playerHand : Hand :=
          { cards := [p1, p2], betAmount := betAmount,
            isDoubled := false, wasSplit := false }
        let dealerHand : Hand :=
          { cards := [d1, d2], betAmount := 0, isDoubled := false, wasSplit := false }
        let g2 := { g1 with deck := rest, counter := counter4,
                            totalWagered := g1.totalWagered + betAmount }
        if playerHand.isBlackjack then
          if dealerHand.isBlackjack then
            .ok ({ g2 with handsPushed := g2.handsPushed + 1,
                           handsPlayed := g2.handsPlayed + 1 }, 0)
          else
            let profit := betAmount * (3 / 2)
            .ok (updateBankrollStats
                   { g2 with bankroll := g2.bankroll + profit,
                             handsWon := g2.handsWon + 1,
                             handsPlayed := g2.handsPlayed + 1 }, profit)
        else if dealerHand.isBlackjack then
          .ok (updateBankrollStats
                 { g2 with bankroll := g2.bankroll - betAmount,
                           handsLost := g2.handsLost + 1,
                           handsPlayed := g2.handsPlayed + 1 }, -betAmount)
        else
          match playPlayerHand d1 (g2.deck.length + 1) g2 playerHand with
          | .error e => .error e
          | .ok (g3, _, some result) =>
            .ok (updateBankrollStats { g3 with handsPlayed := g3.handsPlayed + 1 },
                 result)
          | .ok (g3, playerHand2, none) =>
            match dealerTurn (g3.deck.length + 1) g3 dealerHand with
            | .error e => .error e
            | .ok (g4, dealerHand2) =>
              let settled := determineWinner g4 playerHand2 dealerHand2
              .ok (updateBankrollStats
                     { settled.1 with handsPlayed := settled.1.handsPlayed + 1 },
                   settled.2)
      | _ => .error .shoeEmpty

/-- Embeds `BlackjackGame.playHand`, one hand end to end.  Here `freshDeck` is the
shuffled shoe `Deck.reset` would install if the reshuffle triggers. -/
def playHand (freshDeck : List Card) (g0 : BlackjackGame) :
    Except HandError (BlackjackGame × ℚ) :=
  playHandMain (reshuffleCheck freshDeck g0)

/-- Iterate `playHand`, threading the session state, as the driver loops
in `main()` and the web layer do. -/
def playHandN (freshDeck : List Card) : Nat → BlackjackGame → Except HandError BlackjackGame
  | 0, g => .ok g
  | n + 1, g =>
    match playHand freshDeck g with
    | .error e => .error e
    | .ok (g2, _) => playHandN freshDeck n g2

/-- Whether an engine call completed without raising. -/
def exceptOk {α : Type} : Except HandError α → Bool
  | .ok _ => true
  | .error _ => false

/-- Embeds the profit field of `getStats` in blackjackapp.py: the
bankroll minus the hard-coded constant 1000.0 (`printStatistics` prints
the same quantity). -/
def getStatsProfit (g : BlackjackGame) : ℚ := g.bankroll - 1000

/-- Embeds the roi field of `getStats` in blackjackapp.py: profit over
total wagered, times 100, when anything was wagered, else 0. -/
def getStatsRoi (g : BlackjackGame) : ℚ :=
  if 0 < g.totalWagered then getStatsProfit g / g.totalWagered * 100 else 0

/-- The Hi-Lo sum of a list of cards (used to state the counting
invariant: the running count always equals minus the Hi-Lo sum of the
cards still in the shoe). -/
def hiLoSum (cards : List Card) : Int := (cards.map hiLo).sum

/-- A concrete shuffle outcome: the identity permutation.  Since
`Deck.dealCard` pops from the end of the Python list, dealing order is
the reverse of build order. -/
def freshShuffled : List Card := (buildDeckList 6).reverse

/-- The 120 low (+1) cards of a six-deck shoe, six copies of each
rank/suit combination. -/
def lowCardsCE : List Card :=
  [Rank.r2, Rank.r3, Rank.r4, Rank.r5, Rank.r6].flatMap fun r =>
    Card.SUITS.flatMap fun s => List.replicate 6 { rank := r, suit := s }

/-- The 120 high (-1) cards of a six-deck shoe, ordered so that the last
24 are the rank-10 cards. -/
def highCardsCE : List Card :=
  [Rank.rA, Rank.rJ, Rank.rQ, Rank.rK, Rank.r10].flatMap fun r =>
    Card.SUITS.flatMap fun s => List.replicate 6 { rank := r, suit := s }

/-- The 72 neutral (0) cards of a six-deck shoe, ordered so that the
last 24 are the eights. -/
def neutralCardsCE : List Card :=
  [Rank.r7, Rank.r9, Rank.r8].flatMap fun r =>
    Card.SUITS.flatMap fun s => List.replicate 6 { rank := r, suit := s }

/-- Alternate two lists element by element. -/
def interleave2 : List Card → List Card → List Card
  | a :: as, b :: bs => a :: b :: interleave2 as bs
  | _, _ => []

/-- A shuffle outcome (in deal order) under which a session with
penetration 0.999 deals its shoe dry: 118 high/low pairs, then 71
neutral cards, then one low card (running count stays ≤ 0 at every hand
start until only four cards remain, so Wonging sits out 77 hands of four
burns each), and finally 10, 10, 6, 8 — a hand the engine does play
(true count 13) and on which the player must hit with the shoe empty. -/
def deckCE : List Card :=
  interleave2 (highCardsCE.take 118) (lowCardsCE.take 118)
    ++ neutralCardsCE.take 71
    ++ (lowCardsCE.drop 118).take 1
    ++ highCardsCE.drop 118
    ++ lowCardsCE.drop 119
    ++ neutralCardsCE.drop 71

/-- The session of the C4 counterexample: a legal configuration
(positive bankroll and base bet, penetration 999/1000 inside (0,1)),
whose reshuffle point truncates to 0, so the reshuffle never fires. -/
def gameCE : BlackjackGame :=
  mkBlackjackGame 1000 10 true (999 / 1000) true 1 deckCE

/-- The shoe/counter invariant of claim C7: the cards seen plus the
cards remaining always account for the whole six-deck shoe, and the
running count is exactly the Hi-Lo tally of the cards dealt since the
shoe was last built (equivalently, minus the tally of the cards still in
the shoe, since a full shoe tallies to zero). -/
def ShoeCounterInv (g : BlackjackGame) : Prop :=
  g.counter.cardsSeen + g.deck.length = 312 ∧
    g.counter.runningCount + hiLoSum g.deck = 0

instance (g : BlackjackGame) : Decidable (ShoeCounterInv g) := by
  unfold ShoeCounterInv; infer_instance

/-- The session state an engine call ended in (its input state if the
call raised). -/
def runState (r : Except HandError (BlackjackGame × ℚ)) (g : BlackjackGame) :
    BlackjackGame :=
  match r with
  | .ok (g2, _) => g2
  | .error _ => g

/-- A pair of aces. -/
def pairOfAces : Hand :=
  { cards := [{ rank := Rank.rA, suit := Suit.spades },
              { rank := Rank.rA, suit := Suit.hearts }],
    betAmount := 0, isDoubled := false, wasSplit := false }

/-- A pair of fives. -/
def pairOfFives : Hand :=
  { cards := [{ rank := Rank.r5, suit := Suit.spades },
              { rank := Rank.r5, suit := Suit.hearts }],
    betAmount := 0, isDoubled := false, wasSplit := false }

/-- A dealer upcard of value 6. -/
def upcardSix : Card := { rank := Rank.r6, suit := Suit.spades }

/-- A soft seventeen (ace and six). -/
def softSeventeen : Hand :=
  { cards := [{ rank := Rank.rA, suit := Suit.spades },
              { rank := Rank.r6, suit := Suit.hearts }],
    betAmount := 0, isDoubled := false, wasSplit := false }

/-- A mid-session state for the statistics claims: the session was
created with startingBankroll 500, later holds bankroll 1100 with 200
wagered in total. -/
def statsExampleGame : BlackjackGame :=
  { mkBlackjackGame 500 10 true (3 / 4) false (-1) [] with
      bankroll := 1100, totalWagered := 200 }

/-- A session whose bankroll (5) is below any computable bet (base 10),
with a full shoe, counting on, Wonging off. -/
def lowBankrollGame : BlackjackGame :=
  { mkBlackjackGame 5 10 true (3 / 4) false (-1) freshShuffled with
      bankroll := 5 }

/-- A session state that both needs a reshuffle (50 cards left, cut card
at 78) and has a bankroll (5) below the minimum bet, with a nonzero
running count. -/
def poorReshuffleGame : BlackjackGame :=
  { mkBlackjackGame 5 10 true (3 / 4) false (-1) (freshShuffled.take 50) with
      counter := { runningCount := 3, cardsSeen := 262 } }

/-- What `poorReshuffleGame` becomes after the reshuffle check has fired:
fresh shoe, count reset. -/
def reshuffledPoorGame : BlackjackGame :=
  { poorReshuffleGame with deck := freshShuffled,
                           counter := { runningCount := 0, cardsSeen := 0 } }

/-- A session created with penetration = 2, outside the legal (0,1)
range (its reshuffle point truncates to -312, so the reshuffle can never
fire). -/
def invalidPenGame : BlackjackGame :=
  mkBlackjackGame 1000 10 true 2 true (-1) freshShuffled

/-- A freshly created default session (bankroll 1000, base bet 10,
counting on, Wonging off, penetration 0.75). -/
def defaultGame : BlackjackGame :=
  mkBlackjackGame 1000 10 true (3 / 4) false (-1) freshShuffled

/-- The state of `defaultGame` after one hand. -/
def gameAfterOneHand : BlackjackGame :=
  runState (playHand freshShuffled defaultGame) defaultGame

end Blackjack

deriving instance DecidableEq for Except

namespace Blackjack

/-! ## Helper lemmas -/

theorem Card.one_le_getValue (c : Card) : 1 ≤ c.getValue := by
  rcases c with ⟨r, s⟩
  cases r <;> simp [Card.getValue]

theorem Card.getValue_of_ace (c : Card) (hA : c.rank = Rank.rA) :
    c.getValue = 11 := by
  rcases c with ⟨r, s⟩
  cases r <;> simp_all [Card.getValue]

theorem reduceAces_ge (aces : Nat) :
    ∀ total : Nat, total - 10 * aces ≤ reduceAces total aces := by
  induction aces with
  | zero => intro total; simp [reduceAces]
  | succ a ih =>
    intro total
    unfold reduceAces
    split
    · have h := ih (total - 10)
      omega
    · omega

theorem raw_count_bound (cs : List Card) :
    10 * (cs.filter fun c => c.rank == Rank.rA).length + cs.length ≤
      (cs.map Card.getValue).sum := by
  induction cs with
  | nil => simp
  | cons c cs ih =>
    by_cases hA : c.rank = Rank.rA
    · have hv := Card.getValue_of_ace c hA
      simp only [List.filter_cons, List.map_cons, List.sum_cons, List.length_cons,
        hA, beq_self_eq_true, if_true, hv]
      omega
    · have hv := Card.one_le_getValue c
      have hb : (c.rank == Rank.rA) = false := by
        simpa using hA
      simp only [List.filter_cons, List.map_cons, List.sum_cons, List.length_cons, hb,
        Bool.false_eq_true, if_false]
      omega

/-- Every hand values at least its number of cards: each non-ace is worth
at least 1 and each ace at least 11 − 10. -/
theorem Hand.length_le_getValue (h : Hand) : h.cards.length ≤ h.getValue := by
  have h1 := raw_count_bound h.cards
  have h2 := reduceAces_ge h.numAces h.rawValue
  have h3 : h.numAces ≤ h.cards.length := List.length_filter_le _ _
  unfold Hand.getValue
  unfold Hand.rawValue Hand.numAces at *
  omega

theorem hardHandStrategy_ne_split (pv dv : Nat) (cd : Bool) :
    hardHandStrategy pv dv cd ≠ Action.split := by
  unfold hardHandStrategy
  split_ifs <;> simp

theorem softHandStrategy_ne_split (pv dv : Nat) (cd : Bool) :
    softHandStrategy pv dv cd ≠ Action.split := by
  unfold softHandStrategy
  split_ifs <;> simp

/-- With `canSplit = false` (as the engine always calls it) the strategy
never answers Split. -/
theorem getAction_ne_split (h : Hand) (up : Card) (cd : Bool) :
    getAction h up cd false ≠ Action.split := by
  unfold getAction
  simp only [Bool.false_and, Bool.false_eq_true, if_false]
  split
  · exact softHandStrategy_ne_split _ _ _
  · exact hardHandStrategy_ne_split _ _ _

theorem hardHandStrategy_not_stand (pv dv : Nat) (cd : Bool)
    (hne : hardHandStrategy pv dv cd ≠ Action.stand) : pv ≤ 16 := by
  unfold hardHandStrategy at hne
  split_ifs at hne <;> first | exact absurd rfl hne | omega

theorem softHandStrategy_not_stand (pv dv : Nat) (cd : Bool)
    (hne : softHandStrategy pv dv cd ≠ Action.stand) : pv ≤ 18 := by
  unfold softHandStrategy at hne
  split_ifs at hne <;> first | exact absurd rfl hne | omega

/-- Whenever the strategy asks for another card (Hit or Double), the hand
is worth at most 18: at 19 and above it always stands. -/
theorem getAction_not_stand (h : Hand) (up : Card) (cd : Bool)
    (hne : getAction h up cd false ≠ Action.stand) : h.getValue ≤ 18 := by
  unfold getAction at hne
  simp only [Bool.false_and, Bool.false_eq_true, if_false] at hne
  rcases Nat.lt_or_ge h.getValue 19 with hlt | hge
  · omega
  · exfalso
    apply hne
    split
    · unfold softHandStrategy
      rw [if_pos (by omega)]
    · unfold hardHandStrategy
      rw [if_pos (by omega)]

theorem Hand.addCard_length (h : Hand) (c : Card) :
    (h.addCard c).cards.length = h.cards.length + 1 := by
  simp [Hand.addCard]

/-- The player-turn loop always terminates without touching an empty
shoe as long as at least 19 cards are available beyond the hand already
held: the strategy never asks for a card at value 19 or above, and the
hand value is at least the hand size, so at most 17 further cards are
ever drawn onto the initial two. -/
theorem playPlayerHand_ok (up : Card) :
    ∀ (fuel : Nat) (g : BlackjackGame) (h : Hand),
      g.deck.length < fuel → 19 ≤ g.deck.length + h.cards.length →
      h.cards.length ≤ 19 →
      ∃ g2 h2 r, playPlayerHand up fuel g h = .ok (g2, h2, r) ∧
        g.deck.length + h.cards.length ≤ g2.deck.length + 19 := by
  intro fuel
  induction fuel with
  | zero => intro g h hf _ _; exact absurd hf (Nat.not_lt_zero _)
  | succ fuel ih =>
    intro g h hf hsum hlen
    rcases hAct : getAction h up
        (h.cards.length == 2 && decide (h.betAmount ≤ g.bankroll)) false with
      _ | _ | _ | _
    case stand =>
      refine ⟨g, h, none, ?_, by omega⟩
      simp only [playPlayerHand, hAct]
    case split => exact absurd hAct (getAction_ne_split _ _ _)
    case hit =>
      have h18 : h.getValue ≤ 18 := getAction_not_stand h up _ (by rw [hAct]; simp)
      have hhl : h.cards.length ≤ 18 := le_trans (Hand.length_le_getValue h) h18
      obtain ⟨c, rest, hdeck⟩ : ∃ c rest, g.deck = c :: rest := by
        cases hd : g.deck with
        | nil => rw [hd] at hsum; simp at hsum; omega
        | cons c rest => exact ⟨c, rest, rfl⟩
      rw [hdeck] at hsum hf
      simp only [List.length_cons] at hsum hf
      simp only [playPlayerHand, hAct, hdeck]
      by_cases hbust : (h.addCard c).isBusted
      · rw [if_pos hbust]
        refine ⟨_, _, _, rfl, ?_⟩
        simp only [List.length_cons]
        omega
      · rw [if_neg hbust]
        obtain ⟨g2, h2, r, heq, hb⟩ :=
          ih { g with deck := rest, counter := g.counter.countCard c }
            (h.addCard c) (by show rest.length < fuel; omega)
            (by show 19 ≤ rest.length + (h.addCard c).cards.length
                rw [Hand.addCard_length]; omega)
            (by rw [Hand.addCard_length]; omega)
        refine ⟨g2, h2, r, heq, ?_⟩
        simp only [Hand.addCard_length] at hb
        simp only [List.length_cons]
        omega
    case double =>
      have h18 : h.getValue ≤ 18 := getAction_not_stand h up _ (by rw [hAct]; simp)
      have hhl : h.cards.length ≤ 18 := le_trans (Hand.length_le_getValue h) h18
      obtain ⟨c, rest, hdeck⟩ : ∃ c rest, g.deck = c :: rest := by
        cases hd : g.deck with
        | nil => rw [hd] at hsum; simp at hsum; omega
        | cons c rest => exact ⟨c, rest, rfl⟩
      rw [hdeck] at hsum hf
      simp only [List.length_cons] at hsum hf
      simp only [playPlayerHand, hAct, hdeck]
      by_cases hcd : (h.cards.length == 2 && decide (h.betAmount ≤ g.bankroll)) = true
      · rw [if_pos hcd]
        by_cases hbust :
            (({ h with isDoubled := true,
                       betAmount := h.betAmount * 2 } : Hand).addCard c).isBusted
        · rw [if_pos hbust]
          refine ⟨_, _, _, rfl, ?_⟩
          simp only [List.length_cons]
          omega
        · rw [if_neg hbust]
          refine ⟨_, _, _, rfl, ?_⟩
          simp only [List.length_cons]
          omega
      · rw [if_neg hcd]
        by_cases hbust : (h.addCard c).isBusted
        · rw [if_pos hbust]
          refine ⟨_, _, _, rfl, ?_⟩
          simp only [List.length_cons]
          omega
        · rw [if_neg hbust]
          obtain ⟨g2, h2, r, heq, hb⟩ :=
            ih { g with deck := rest, counter := g.counter.countCard c }
              (h.addCard c) (by show rest.length < fuel; omega)
              (by show 19 ≤ rest.length + (h.addCard c).cards.length
                  rw [Hand.addCard_length]; omega)
              (by rw [Hand.addCard_length]; omega)
          refine ⟨g2, h2, r, heq, ?_⟩
          simp only [Hand.addCard_length] at hb
          simp only [List.length_cons]
          omega

/-- The dealer loop always terminates without touching an empty shoe as
long as at least 17 cards are available beyond the hand already held:
the dealer stops at value 17, and value is at least hand size. -/
theorem dealerTurn_ok :
    ∀ (fuel : Nat) (g : BlackjackGame) (h : Hand),
      g.deck.length < fuel → 17 ≤ g.deck.length + h.cards.length →
      ∃ g2 h2, dealerTurn fuel g h = .ok (g2, h2) := by
  intro fuel
  induction fuel with
  | zero => intro g h hf _; exact absurd hf (Nat.not_lt_zero _)
  | succ fuel ih =>
    intro g h hf hsum
    by_cases hv : h.getValue < 17
    · have hhl : h.cards.length ≤ 16 :=
        le_trans (Hand.length_le_getValue h) (by omega)
      obtain ⟨c, rest, hdeck⟩ : ∃ c rest, g.deck = c :: rest := by
        cases hd : g.deck with
        | nil => rw [hd] at hsum; simp at hsum; omega
        | cons c rest => exact ⟨c, rest, rfl⟩
      rw [hdeck] at hsum hf
      simp only [List.length_cons] at hsum hf
      simp only [dealerTurn, if_pos hv, hdeck]
      exact ih { g with deck := rest, counter := g.counter.countCard c }
        (h.addCard c) (by show rest.length < fuel; omega)
        (by show 17 ≤ rest.length + (h.addCard c).cards.length
            rw [Hand.addCard_length]; omega)
    · refine ⟨g, h, ?_⟩
      simp only [dealerTurn, if_neg hv]

/-- One hand body never deals from an empty shoe when it starts with at
least 36 cards: 4 for the initial deal, at most 17 player hits, at most
15 dealer hits. -/
theorem playHandMain_ok (g1 : BlackjackGame) (h36 : 36 ≤ g1.deck.length) :
    exceptOk (playHandMain g1) = true := by
  have key : ∀ l : List Card, 4 ≤ l.length →
      ∃ p1 d1 p2 d2 rest, l = p1 :: d1 :: p2 :: d2 :: rest := by
    intro l hl
    match l with
    | a :: b :: c :: d :: t => exact ⟨a, b, c, d, t, rfl⟩
    | [] | [_] | [_, _] | [_, _, _] =>
      simp only [List.length_cons, List.length_nil] at hl; omega
  obtain ⟨p1, d1, p2, d2, rest, hdeck⟩ := key g1.deck (by omega)
  rw [hdeck] at h36
  simp only [List.length_cons] at h36
  simp only [playHandMain, hdeck]
  split
  · rfl
  · generalize (if g1.useCardCounting = true then
        getBetAmount g1.baseBet g1.maxBetMultiplier
          (g1.counter.getTrueCount (decksRemainingQ (p1 :: d1 :: p2 :: d2 :: rest)))
          g1.bankroll
      else g1.baseBet) = bet
    split
    · rfl
    · split
      · split
        · rfl
        · rfl
      · split
        · rfl
        · set gDealt : BlackjackGame :=
            { g1 with
                deck := rest,
                counter :=
                  (((g1.counter.countCard p1).countCard d1).countCard p2).countCard
                    d2,
                totalWagered := g1.totalWagered + bet } with hgd
          have hdl : gDealt.deck = rest := by rw [hgd]
          obtain ⟨g3, h2, r, heq, hb⟩ :=
            playPlayerHand_ok d1 (gDealt.deck.length + 1) gDealt
              { cards := [p1, p2], betAmount := bet,
                isDoubled := false, wasSplit := false }
              (by omega)
              (by rw [hdl]; show 19 ≤ rest.length + 2; omega)
              (by show 2 ≤ 19; omega)
          have hb2 : rest.length + 2 ≤ g3.deck.length + 19 := by
            rw [hdl] at hb; exact hb
          rcases r with _ | r
          · obtain ⟨g4, h4, heq2⟩ :=
              dealerTurn_ok (g3.deck.length + 1) g3
                { cards := [d1, d2], betAmount := 0,
                  isDoubled := false, wasSplit := false }
                (by omega)
                (by show 17 ≤ g3.deck.length + 2; omega)
            simp only [heq, heq2, exceptOk]
          · simp only [heq, exceptOk]

theorem hiLoSum_cons (c : Card) (l : List Card) :
    hiLoSum (c :: l) = hiLo c + hiLoSum l := by
  simp [hiLoSum]

/-- Drawing the top card and forwarding it to the counter preserves the
shoe/counter accounting invariant. -/
theorem shoeCounterInv_draw (g : BlackjackGame) (card : Card) (rest : List Card)
    (hdeck : g.deck = card :: rest) (hinv : ShoeCounterInv g) :
    ShoeCounterInv { g with deck := rest, counter := g.counter.countCard card } := by
  obtain ⟨h1, h2⟩ := hinv
  rw [hdeck] at h1 h2
  simp only [List.length_cons] at h1
  rw [hiLoSum_cons] at h2
  constructor
  · show g.counter.cardsSeen + 1 + rest.length = 312
    omega
  · show g.counter.runningCount + hiLo card + hiLoSum rest = 0
    omega

/-- The player loop forwards every card it removes to the counter. -/
theorem playPlayerHand_inv (up : Card) :
    ∀ (fuel : Nat) (g : BlackjackGame) (h : Hand) (g2 : BlackjackGame) (h2 : Hand)
      (r : Option ℚ), ShoeCounterInv g →
      playPlayerHand up fuel g h = .ok (g2, h2, r) → ShoeCounterInv g2 := by
  intro fuel
  induction fuel with
  | zero =>
    intro g h g2 h2 r _ heq
    simp [playPlayerHand] at heq
  | succ fuel ih =>
    intro g h g2 h2 r hinv heq
    rcases hAct : getAction h up
        (h.cards.length == 2 && decide (h.betAmount ≤ g.bankroll)) false with
      _ | _ | _ | _ <;>
      simp only [playPlayerHand, hAct] at heq
    case stand =>
      obtain ⟨hg, _, _⟩ := by simpa using heq
      rw [← hg]
      exact hinv
    case split => exact ih g h g2 h2 r hinv heq
    case hit =>
      cases hdeck : g.deck with
      | nil => simp only [hdeck] at heq; simp at heq
      | cons c rest =>
        simp only [hdeck] at heq
        have hstep := shoeCounterInv_draw g c rest hdeck hinv
        by_cases hbust : (h.addCard c).isBusted
        · rw [if_pos hbust] at heq
          obtain ⟨hg, _, _⟩ := by simpa using heq
          rw [← hg]
          exact hstep
        · rw [if_neg hbust] at heq
          exact ih _ _ g2 h2 r hstep heq
    case double =>
      by_cases hcd : (h.cards.length == 2 && decide (h.betAmount ≤ g.bankroll)) = true
      · rw [if_pos hcd] at heq
        cases hdeck : g.deck with
        | nil => simp only [hdeck] at heq; simp at heq
        | cons c rest =>
          simp only [hdeck] at heq
          have hstep := shoeCounterInv_draw g c rest hdeck hinv
          by_cases hbust :
              (({ h with isDoubled := true,
                         betAmount := h.betAmount * 2 } : Hand).addCard c).isBusted
          · rw [if_pos hbust] at heq
            obtain ⟨hg, _, _⟩ := by simpa using heq
            rw [← hg]
            exact hstep
          · rw [if_neg hbust] at heq
            obtain ⟨hg, _, _⟩ := by simpa using heq
            rw [← hg]
            exact hstep
      · rw [if_neg hcd] at heq
        cases hdeck : g.deck with
        | nil => simp only [hdeck] at heq; simp at heq
        | cons c rest =>
          simp only [hdeck] at heq
          have hstep := shoeCounterInv_draw g c rest hdeck hinv
          by_cases hbust : (h.addCard c).isBusted
          · rw [if_pos hbust] at heq
            obtain ⟨hg, _, _⟩ := by simpa using heq
            rw [← hg]
            exact hstep
          · rw [if_neg hbust] at heq
            exact ih _ _ g2 h2 r hstep heq

/-- The dealer loop forwards every card it removes to the counter. -/
theorem dealerTurn_inv :
    ∀ (fuel : Nat) (g : BlackjackGame) (h : Hand) (g2 : BlackjackGame) (h2 : Hand),
      ShoeCounterInv g → dealerTurn fuel g h = .ok (g2, h2) → ShoeCounterInv g2 := by
  intro fuel
  induction fuel with
  | zero =>
    intro g h g2 h2 _ heq
    simp [dealerTurn] at heq
  | succ fuel ih =>
    intro g h g2 h2 hinv heq
    by_cases hv : h.getValue < 17
    · rw [dealerTurn, if_pos hv] at heq
      cases hdeck : g.deck with
      | nil => simp only [hdeck] at heq; simp at heq
      | cons c rest =>
        simp only [hdeck] at heq
        exact ih _ _ g2 h2 (shoeCounterInv_draw g c rest hdeck hinv) heq
    · rw [dealerTurn, if_neg hv] at heq
      obtain ⟨hg, _⟩ := by simpa using heq
      rw [← hg]
      exact hinv

/-- The sat-out burn loop forwards every card it removes to the counter. -/
theorem burnCards_inv :
    ∀ (n : Nat) (g : BlackjackGame), ShoeCounterInv g →
      ShoeCounterInv (burnCards n g) := by
  intro n
  induction n with
  | zero => intro g hinv; exact hinv
  | succ n ih =>
    intro g hinv
    cases hdeck : g.deck with
    | nil => simp only [burnCards, hdeck]; exact ih g hinv
    | cons c rest =>
      simp only [burnCards, hdeck]
      exact ih _ (shoeCounterInv_draw g c rest hdeck hinv)

theorem determineWinner_preserves (g : BlackjackGame) (p d : Hand) :
    (determineWinner g p d).1.deck = g.deck ∧
      (determineWinner g p d).1.counter = g.counter := by
  simp only [determineWinner]
  split_ifs <;> exact ⟨rfl, rfl⟩

theorem shoeCounterInv_determineWinner (g : BlackjackGame) (p d : Hand)
    (hinv : ShoeCounterInv g) : ShoeCounterInv (determineWinner g p d).1 := by
  obtain ⟨hd, hc⟩ := determineWinner_preserves g p d
  unfold ShoeCounterInv at hinv ⊢
  rw [hd, hc]
  exact hinv

/-- The reshuffle check preserves the accounting invariant: a rebuild
installs a full 312-card shoe and resets both counter fields to 0 in the
same step. -/
theorem reshuffleCheck_inv (freshDeck : List Card) (g0 : BlackjackGame)
    (hfresh : freshDeck.length = 312) (hsum : hiLoSum freshDeck = 0)
    (hinv : ShoeCounterInv g0) :
    ShoeCounterInv (reshuffleCheck freshDeck g0) := by
  unfold reshuffleCheck
  split
  · constructor
    · show 0 + freshDeck.length = 312
      omega
    · show 0 + hiLoSum freshDeck = 0
      omega
  · exact hinv

/-- Every execution path of the hand body preserves the accounting
invariant: each card removed from the shoe is counted exactly once. -/
theorem playHandMain_inv (g1 : BlackjackGame) (hinv : ShoeCounterInv g1)
    (g2 : BlackjackGame) (p : ℚ) (heq : playHandMain g1 = .ok (g2, p)) :
    ShoeCounterInv g2 := by
  simp only [playHandMain] at heq
  split at heq
  · obtain ⟨hg, _⟩ := by simpa using heq
    rw [← hg]
    exact burnCards_inv 4 _ hinv
  · set bet : ℚ :=
      (if g1.useCardCounting = true then
        getBetAmount g1.baseBet g1.maxBetMultiplier
          (g1.counter.getTrueCount (decksRemainingQ g1.deck)) g1.bankroll
      else g1.baseBet) with hbet
    split at heq
    · obtain ⟨hg, _⟩ := by simpa using heq
      rw [← hg]
      exact hinv
    · split at heq
      case _ p1 d1 p2 d2 rest hdeck =>
        have s1 := shoeCounterInv_draw g1 p1 (d1 :: p2 :: d2 :: rest) hdeck hinv
        have s2 := shoeCounterInv_draw _ d1 (p2 :: d2 :: rest) rfl s1
        have s3 := shoeCounterInv_draw _ p2 (d2 :: rest) rfl s2
        have s4 := shoeCounterInv_draw _ d2 rest rfl s3
        have s5 : ShoeCounterInv
            { g1 with
                deck := rest,
                counter :=
                  (((g1.counter.countCard p1).countCard d1).countCard p2).countCard
                    d2,
                totalWagered := g1.totalWagered + bet } := s4
        split at heq
        · split at heq
          · obtain ⟨hg, _⟩ := by simpa using heq
            rw [← hg]
            exact s4
          · obtain ⟨hg, _⟩ := by simpa using heq
            rw [← hg]
            exact s4
        · split at heq
          · obtain ⟨hg, _⟩ := by simpa using heq
            rw [← hg]
            exact s4
          · split at heq
            · simp at heq
            case _ g3 h2 result heqP =>
              obtain ⟨hg, _⟩ := by simpa using heq
              rw [← hg]
              have hg3 : ShoeCounterInv g3 :=
                playPlayerHand_inv d1 _ _ _ _ _ _ s5 heqP
              exact hg3
            case _ g3 h2 heqP =>
              split at heq
              · simp at heq
              case _ g4 h4 heqD =>
                obtain ⟨hg, _⟩ := by simpa using heq
                rw [← hg]
                have hg3 : ShoeCounterInv g3 :=
                  playPlayerHand_inv d1 _ _ _ _ _ _ s5 heqP
                have hg4 : ShoeCounterInv g4 :=
                  dealerTurn_inv _ _ _ _ _ hg3 heqD
                exact shoeCounterInv_determineWinner g4 _ _ hg4
      case _ =>
        simp at heq

theorem softHandStrategy_no_double (pv dv : Nat) :
    softHandStrategy pv dv false ≠ Action.double := by
  unfold softHandStrategy
  split_ifs <;> simp_all

theorem hardHandStrategy_no_double (pv dv : Nat) :
    hardHandStrategy pv dv false ≠ Action.double := by
  unfold hardHandStrategy
  split_ifs <;> simp_all

theorem dealerTurn_final_ge :
    ∀ (fuel : Nat) (g : BlackjackGame) (h : Hand) (g2 : BlackjackGame) (h2 : Hand),
      dealerTurn fuel g h = .ok (g2, h2) → 17 ≤ h2.getValue := by
  intro fuel
  induction fuel with
  | zero => intro g h g2 h2 heq; simp [dealerTurn] at heq
  | succ fuel ih =>
    intro g h g2 h2 heq
    by_cases hv : h.getValue < 17
    · rw [dealerTurn, if_pos hv] at heq
      cases hdeck : g.deck with
      | nil => simp only [hdeck] at heq; simp at heq
      | cons c rest => simp only [hdeck] at heq; exact ih _ _ g2 h2 heq
    · rw [dealerTurn, if_neg hv] at heq
      obtain ⟨hg, hh⟩ := by simpa using heq
      rw [← hh]
      omega

theorem reshuffleCheck_length_ge (g0 : BlackjackGame) (freshDeck : List Card)
    (hfresh : freshDeck.length = 312) (hrp : (36 : ℤ) ≤ g0.reshufflePoint) :
    36 ≤ (reshuffleCheck freshDeck g0).deck.length := by
  unfold reshuffleCheck
  split
  · show 36 ≤ freshDeck.length
    omega
  case isFalse hns =>
    unfold needsReshuffle at hns
    simp only [decide_eq_true_eq, not_lt] at hns
    omega

/-! ## Claim theorems -/

set_option maxRecDepth 100000

/-- Claim C1: `Hand.isSoft` tests the raw card total against 21 instead
of the ace-reduced value, so on a pair of aces (raw total 22) it answers
`false`, while the definition in the spec — after reduction the value is
12 with one ace still counted as 11 — makes the hand soft.  The code
also contradicts its own inline comment (soft when the hand has an ace
and is not busted): the hand has an ace and `isBusted` is `false`. -/
theorem isSoft_wrong_on_pair_of_aces :
    pairOfAces.isSoft = false ∧ pairOfAces.isSoftSpec ∧
      pairOfAces.getValue = 12 ∧ pairOfAces.isBusted = false := by
  exact ⟨by decide, by decide, by decide, by decide⟩

/-- Claim C2 counterexample: a pair of fives against a dealer six with
`canDouble = false` and `canSplit = true` falls through the pair table
into `hardHandStrategy(10, 6, True)` — the source hard-codes
`canDouble = True` there — and returns Double even though doubling was
disallowed by the caller. -/
theorem pair_of_fives_double_without_canDouble :
    getAction pairOfFives upcardSix false true = Action.double := by decide

/-- Claim C2 (amended): with `canSplit = false` — as the game engine
always calls it — `getAction` with `canDouble = false` never returns
Double; the only Double leak is the pair-table fall-through, which passes
`canDouble = True` verbatim. -/
theorem getAction_no_double_when_double_denied (h : Hand) (up : Card) :
    getAction h up false false ≠ Action.double := by
  unfold getAction
  simp only [Bool.false_and, Bool.false_eq_true, if_false]
  split
  · exact softHandStrategy_no_double _ _
  · exact hardHandStrategy_no_double _ _

/-- Claim C3 counterexample: with baseBet 10 and bankroll 100 the final
`max(baseBet, ...)` floor pushes the bet to 10, strictly above the
claimed upper bound min(baseBet·maxMultiplier, 5% of bankroll, bankroll)
= 5 — the bet does exceed 5% of the bankroll. -/
theorem bet_exceeds_five_percent_cap :
    (0 : ℚ) < 100 ∧ (0 : ℚ) < 10 ∧
    getBetAmount 10 10 0 100 = 10 ∧
    min ((10 : ℚ) * 10) (min (100 * (5 / 100)) 100) = 5 ∧
    ¬(getBetAmount 10 10 0 100 ≤ min ((10 : ℚ) * 10) (min (100 * (5 / 100)) 100)) := by
  refine ⟨?_, ?_, ?_, ?_, ?_⟩ <;> with_unfolding_all decide

/-- Claim C3 (amended): the bet always lies in the interval from baseBet
to max(baseBet, min(baseBet·maxMultiplier, 5% of bankroll, bankroll)) —
the baseBet floor is applied last and can override the 5% cap — and on
the spec example (baseBet 10, bankroll 1000, trueCount 3.5) the result
is exactly 50. -/
theorem getBetAmount_range :
    (∀ baseBet maxBetMultiplier trueCount currentBankroll : ℚ,
      0 < currentBankroll → 0 < baseBet →
      baseBet ≤ getBetAmount baseBet maxBetMultiplier trueCount currentBankroll ∧
      getBetAmount baseBet maxBetMultiplier trueCount currentBankroll ≤
        max baseBet (min (baseBet * maxBetMultiplier)
          (min (currentBankroll * (5 / 100)) currentBankroll))) ∧
    getBetAmount 10 10 (7 / 2) 1000 = 50 := by
  constructor
  · intro b M tc B hB hb
    constructor
    · exact le_max_left _ _
    · simp only [getBetAmount]
      apply max_le_max le_rfl
      apply le_min
      · exact le_trans (min_le_left _ _)
          (le_trans (min_le_left _ _)
            (mul_le_mul_of_nonneg_left (min_le_right _ _) (le_of_lt hb)))
      · exact le_min (le_trans (min_le_left _ _) (min_le_right _ _))
          (min_le_right _ _)
  · with_unfolding_all decide

theorem getBetAmount_range_witness :
    (0 : ℚ) < 1000 ∧ (0 : ℚ) < 10 ∧
    (10 : ℚ) ≤ getBetAmount 10 10 (7 / 2) 1000 ∧
    getBetAmount 10 10 (7 / 2) 1000 ≤
      max 10 (min ((10 : ℚ) * 10) (min (1000 * (5 / 100)) 1000)) :=
  ⟨by norm_num, by norm_num,
   (getBetAmount_range.1 10 10 (7 / 2) 1000 (by norm_num) (by norm_num)).1,
   (getBetAmount_range.1 10 10 (7 / 2) 1000 (by norm_num) (by norm_num)).2⟩

/-- Claim C9: for any fixed bankroll, baseBet and maxMultiplier the bet
is monotonically non-decreasing in the true count: the multiplier ladder
is a non-decreasing step function, the caps are constant in the true
count, and the final baseBet floor preserves monotonicity. -/
theorem getBetAmount_monotone_in_trueCount
    (baseBet maxBetMultiplier currentBankroll tc1 tc2 : ℚ) (hle : tc1 ≤ tc2) :
    getBetAmount baseBet maxBetMultiplier tc1 currentBankroll ≤
      getBetAmount baseBet maxBetMultiplier tc2 currentBankroll := by
  have h1 : ∀ tc : ℚ, 1 ≤ betMultiplier tc := by
    intro tc; unfold betMultiplier; split_ifs <;> norm_num
  have hmono : betMultiplier tc1 ≤ betMultiplier tc2 := by
    unfold betMultiplier
    split_ifs <;> linarith
  simp only [getBetAmount]
  rcases le_or_lt 0 baseBet with hb | hb
  · exact max_le_max le_rfl
      (min_le_min
        (min_le_min (mul_le_mul_of_nonneg_left (min_le_min hmono le_rfl) hb) le_rfl)
        le_rfl)
  · rcases le_or_lt 1 maxBetMultiplier with hM | hM
    · have key : ∀ tc : ℚ,
          max baseBet (min (min (baseBet * min (betMultiplier tc) maxBetMultiplier)
            (currentBankroll * (5 / 100))) currentBankroll) = baseBet := by
        intro tc
        apply max_eq_left
        have hm1 : 1 ≤ min (betMultiplier tc) maxBetMultiplier := le_min (h1 tc) hM
        have hmul : baseBet * min (betMultiplier tc) maxBetMultiplier ≤ baseBet := by
          nlinarith
        exact le_trans (min_le_left _ _) (le_trans (min_le_left _ _) hmul)
      rw [key tc1, key tc2]
    · have key : ∀ tc : ℚ,
          min (betMultiplier tc) maxBetMultiplier = maxBetMultiplier := by
        intro tc; exact min_eq_right (le_trans (le_of_lt hM) (h1 tc))
      rw [key tc1, key tc2]

theorem getBetAmount_monotone_in_trueCount_witness :
    (0 : ℚ) ≤ 2 ∧ getBetAmount 10 10 0 1000 ≤ getBetAmount 10 10 2 1000 :=
  ⟨by norm_num, getBetAmount_monotone_in_trueCount 10 10 1000 0 2 (by norm_num)⟩

/-- Claim C4 counterexample: penetration 999/1000 lies inside (0,1) but
its reshuffle point `int(312·(1−p))` truncates to 0, so the reshuffle
never fires.  Under the exhibited shuffle (a permutation of the six-deck
shoe), Wonging sits out 77 hands of four burned cards each and then the
78th hand is played with only four cards left: the player holds 16
against a dealer ten, must hit, and `dealCard` pops an empty shoe. -/
theorem shoe_dealt_dry_at_high_penetration :
    List.Perm deckCE (buildDeckList 6) ∧
    (0 : ℚ) < 999 / 1000 ∧ (999 / 1000 : ℚ) < 1 ∧
    playHandN freshShuffled 78 gameCE = .error .shoeEmpty := by
  refine ⟨?_, ?_, ?_, ?_⟩ <;> with_unfolding_all decide

/-- Claim C4 (amended): the reshuffle check keeps `dealCard` away from
an empty shoe only when the configured reshuffle point is at least 36
(one hand consumes at most 4 + 17 + 15 cards); for every session whose
reshuffle point is ≥ 36 — rather than for every penetration in (0,1) —
every `playOneHand` call, from any session state and with any 312-card
reshuffle shoe, completes without drawing from an empty shoe. -/
theorem playHand_no_empty_draw (g : BlackjackGame) (freshDeck : List Card)
    (hfresh : freshDeck.length = 312) (hrp : (36 : ℤ) ≤ g.reshufflePoint) :
    exceptOk (playHand freshDeck g) = true := by
  unfold playHand
  exact playHandMain_ok _ (reshuffleCheck_length_ge g freshDeck hfresh hrp)

theorem playHand_no_empty_draw_witness :
    freshShuffled.length = 312 ∧ (36 : ℤ) ≤ defaultGame.reshufflePoint ∧
    exceptOk (playHand freshShuffled defaultGame) = true :=
  ⟨by decide, by with_unfolding_all decide,
   playHand_no_empty_draw defaultGame freshShuffled (by decide)
     (by with_unfolding_all decide)⟩

/-- Claim C5 counterexample: in a state that both needs a reshuffle and
has a bankroll (5) below the computed bet (10), `playOneHand` is not
atomic: it reports the insufficient-funds outcome (profit 0, no cards
dealt to a hand) but has already replaced the shoe and reset the counter,
so shoe and counter are not as they were before the call. -/
theorem reshuffle_mutates_despite_insufficient_funds :
    poorReshuffleGame.bankroll <
      getBetAmount poorReshuffleGame.baseBet poorReshuffleGame.maxBetMultiplier
        (reshuffledPoorGame.counter.getTrueCount
          (decksRemainingQ reshuffledPoorGame.deck))
        poorReshuffleGame.bankroll ∧
    playHand freshShuffled poorReshuffleGame = .ok (reshuffledPoorGame, 0) ∧
    reshuffledPoorGame.deck ≠ poorReshuffleGame.deck ∧
    reshuffledPoorGame.counter ≠ poorReshuffleGame.counter := by
  refine ⟨?_, ?_, ?_, ?_⟩ <;> with_unfolding_all decide

/-- Claim C5 (amended): provided the reshuffle check does not fire and
the Wonging sit-out does not trigger, a `playOneHand` call whose computed
bet exceeds the bankroll returns the state completely unchanged: no cards
drawn, shoe, counter, bankroll and aggregates exactly as before. -/
theorem insufficient_funds_no_mutation (g : BlackjackGame) (freshDeck : List Card)
    (hnr : needsReshuffle g = false)
    (hw : (g.useWonging &&
      decide (g.counter.getTrueCount (decksRemainingQ g.deck) <
        g.wongingThreshold)) = false)
    (hpoor : g.bankroll <
      (if g.useCardCounting then
        getBetAmount g.baseBet g.maxBetMultiplier
          (g.counter.getTrueCount (decksRemainingQ g.deck)) g.bankroll
      else g.baseBet)) :
    playHand freshDeck g = .ok (g, 0) := by
  unfold playHand reshuffleCheck
  simp only [hnr, Bool.false_eq_true, if_false]
  simp only [playHandMain, hw, Bool.false_eq_true, if_false]
  rw [if_pos hpoor]

theorem insufficient_funds_no_mutation_witness :
    needsReshuffle lowBankrollGame = false ∧
    playHand freshShuffled lowBankrollGame = .ok (lowBankrollGame, 0) :=
  ⟨by with_unfolding_all decide,
   insufficient_funds_no_mutation lowBankrollGame freshShuffled
     (by with_unfolding_all decide) (by with_unfolding_all decide)
     (by with_unfolding_all decide)⟩

/-- Claim C6 counterexample: a session created with penetration 2 —
outside (0,1) — is not rejected: construction succeeds (reshuffle point
-312, full 312-card shoe) and the session is usable, playing a full hand
that pays a blackjack and mutating the bankroll. -/
theorem invalid_config_accepted :
    ¬((0 : ℚ) < 2 ∧ (2 : ℚ) < 1) ∧
    invalidPenGame.deck.length = 312 ∧
    (runState (playHand freshShuffled invalidPenGame) invalidPenGame).handsPlayed
        = 1 ∧
    (runState (playHand freshShuffled invalidPenGame) invalidPenGame).bankroll
        = 1015 := by
  refine ⟨?_, ?_, ?_, ?_⟩ <;> with_unfolding_all decide

/-- Claim C6 (amended): session creation performs no validation at all:
every configuration — including penetration outside (0,1) and
non-positive bankroll or base bet — produces a session object with the
given values stored; no ConfigurationError path exists, and the session
built with penetration 2 still plays hands. -/
theorem session_creation_no_validation :
    (∀ (sb bb : ℚ) (cc : Bool) (p : ℚ) (w : Bool) (wt : ℚ) (d : List Card),
      (mkBlackjackGame sb bb cc p w wt d).bankroll = sb ∧
      (mkBlackjackGame sb bb cc p w wt d).baseBet = bb ∧
      (mkBlackjackGame sb bb cc p w wt d).penetration = p ∧
      (mkBlackjackGame sb bb cc p w wt d).deck = d ∧
      (mkBlackjackGame sb bb cc p w wt d).reshufflePoint =
        pyInt ((6 * 52 : ℚ) * (1 - p))) ∧
    invalidPenGame.reshufflePoint = -312 ∧
    exceptOk (playHand freshShuffled invalidPenGame) = true := by
  refine ⟨fun sb bb cc p w wt d => ⟨rfl, rfl, rfl, rfl, rfl⟩, ?_, ?_⟩ <;>
    with_unfolding_all decide

/-- Claim C7: every execution path of `playOneHand` — the sat-out burn
path included — forwards each card removed from the shoe to the counter
exactly once.  Stated as preservation of the accounting invariant
`ShoeCounterInv`: cards seen plus cards remaining always equal 312, and
the running count always equals the Hi-Lo tally of the cards dealt from
the current shoe since its last rebuild (immediately after a rebuild
both counter fields are 0 and the invariant holds with a full shoe). -/
theorem playHand_counts_each_card_once (g g2 : BlackjackGame)
    (freshDeck : List Card) (p : ℚ) (hfresh : freshDeck.length = 312)
    (hsum : hiLoSum freshDeck = 0) (hinv : ShoeCounterInv g)
    (heq : playHand freshDeck g = .ok (g2, p)) :
    ShoeCounterInv g2 ∧
      (needsReshuffle g = true →
        (reshuffleCheck freshDeck g).counter =
          { runningCount := 0, cardsSeen := 0 }) := by
  constructor
  · unfold playHand at heq
    exact playHandMain_inv _ (reshuffleCheck_inv freshDeck g hfresh hsum hinv) g2 p
      heq
  · intro hr
    unfold reshuffleCheck
    rw [if_pos hr]

theorem playHand_counts_each_card_once_witness :
    ShoeCounterInv gameAfterOneHand :=
  (playHand_counts_each_card_once defaultGame gameAfterOneHand freshShuffled 15
    (by decide) (by decide) (by with_unfolding_all decide)
    (by with_unfolding_all decide)).1

/-- Claim C8: the dealer draws exactly while the hand value is below 17
and never at 17 or more — `getValue` already values a soft 17 at 17, so
the dealer stands on soft 17 — and whenever the dealer turn completes,
the final dealer hand value is at least 17. -/
theorem dealer_draws_below_17_stands_on_17 (fuel : Nat) (g g2 : BlackjackGame)
    (h h2 : Hand) :
    (17 ≤ h.getValue → dealerTurn (fuel + 1) g h = .ok (g, h)) ∧
    (dealerTurn fuel g h = .ok (g2, h2) → 17 ≤ h2.getValue) ∧
    (∀ card rest, h.getValue < 17 → g.deck = card :: rest →
      dealerTurn (fuel + 1) g h =
        dealerTurn fuel { g with deck := rest, counter := g.counter.countCard card }
          (h.addCard card)) := by
  refine ⟨?_, ?_, ?_⟩
  · intro hge
    simp only [dealerTurn, if_neg (Nat.not_lt.mpr hge)]
  · exact dealerTurn_final_ge fuel g h g2 h2
  · intro card rest hlt hdeck
    simp only [dealerTurn, if_pos hlt, hdeck]

theorem dealer_draws_below_17_stands_on_17_witness :
    softSeventeen.getValue = 17 ∧
    dealerTurn 1 defaultGame softSeventeen = .ok (defaultGame, softSeventeen) :=
  ⟨by decide,
   (dealer_draws_below_17_stands_on_17 0 defaultGame defaultGame softSeventeen
     softSeventeen).1 (by decide)⟩

/-- Claim C10 counterexample: `getStats` reports ROI as a percentage,
100·(profit/totalWagered), not the plain quotient profit/totalWagered the
claim states: on a session with (hard-coded) profit 100 and 200 wagered
it reports 50, not 1/2. -/
theorem stats_roi_is_percentage :
    getStatsRoi statsExampleGame = 50 ∧
    getStatsProfit statsExampleGame / statsExampleGame.totalWagered = 1 / 2 ∧
    getStatsRoi statsExampleGame ≠
      getStatsProfit statsExampleGame / statsExampleGame.totalWagered := by
  refine ⟨?_, ?_, ?_⟩ <;> with_unfolding_all decide

/-- Claim C10 (amended): the stats snapshot computes profit as bankroll
minus the hard-coded constant 1000.0 — it equals bankroll minus the
configured startingBankroll exactly when startingBankroll = 1000 — and
ROI as 100·(profit/totalWagered), a percentage, 0 when nothing was
wagered. -/
theorem stats_profit_hardcoded_1000 (g : BlackjackGame) (startingBankroll : ℚ) :
    (getStatsProfit g = g.bankroll - startingBankroll ↔ startingBankroll = 1000) ∧
    (0 < g.totalWagered →
      getStatsRoi g = getStatsProfit g / g.totalWagered * 100) ∧
    (g.totalWagered ≤ 0 → getStatsRoi g = 0) := by
  refine ⟨?_, ?_, ?_⟩
  · unfold getStatsProfit
    constructor
    · intro hh; linarith
    · intro hh; rw [hh]
  · intro hpos
    unfold getStatsRoi
    rw [if_pos hpos]
  · intro hnonpos
    unfold getStatsRoi
    rw [if_neg (not_lt.mpr hnonpos)]

theorem stats_profit_hardcoded_1000_witness :
    getStatsProfit statsExampleGame = statsExampleGame.bankroll - 1000 ∧
    getStatsRoi statsExampleGame =
      getStatsProfit statsExampleGame / statsExampleGame.totalWagered * 100 :=
  ⟨((stats_profit_hardcoded_1000 statsExampleGame 1000).1).mpr rfl,
   (stats_profit_hardcoded_1000 statsExampleGame 1000).2.1
     (by with_unfolding_all decide)⟩

end Blackjack
